import Mathlib

/-!
# Verification of the RBniCSx proper orthogonal decomposition core

This file gives a shallow embedding of the proper orthogonal decomposition
(POD) pipeline of RBniCSx and proves the specified properties about it.

The repository source tree contains the dispatch layer
`rbnicsx/backends/proper_orthogonal_decomposition.py`, which delegates the
actual algorithm to `rbnicsx._backends.proper_orthogonal_decomposition`
(functions `proper_orthogonal_decomposition_functions`,
`proper_orthogonal_decomposition_functions_block` and
`proper_orthogonal_decomposition_tensors`).  That implementing module is not
part of this source tree, so the algorithmic core below is modelled from the
specification (sections 4.1-4.5 of the spec), while the dispatch layer is
embedded from the source file directly.

Scalars are modelled as rationals; the external eigensolver and the square
root used during normalization are parameters of the pipeline, matching the
"external collaborator" treatment of the spec.
-/

namespace RBniCSx

/-- Modelled from the spec: the snapshot space collaborator of spec section 6
(the concrete realisation lives in the missing modules
`rbnicsx.backends.functions_list` / `rbnicsx.backends.projection`): ordered
storage of opaque vector space elements together with an inner product
evaluator, scaling and addition sufficient to build linear combinations. -/
structure SnapshotSpace (V : Type) where
  ip : V → V → ℚ
  smul : ℚ → V → V
  add : V → V → V
  zero : V

/-- Modelled from the spec: the Correlation Matrix Builder of spec section 4.1
(implemented in the missing module
`rbnicsx._backends.proper_orthogonal_decomposition`): `C[i][j] = a(s_i, s_j)`,
where each off-diagonal inner product is evaluated once (for `i ≤ j`) and
mirrored into the transposed entry. -/
def correlationMatrix {V : Type} [Inhabited V] (ip : V → V → ℚ) (snaps : List V) :
    List (List ℚ) :=
  (List.range snaps.length).map fun i =>
    (List.range snaps.length).map fun j =>
      if i ≤ j then ip (snaps.getD i default) (snaps.getD j default)
      else ip (snaps.getD j default) (snaps.getD i default)

/-- The entry of the correlation matrix at row `i`, column `j`, read with
out-of-range defaults. -/
def matrixEntry (C : List (List ℚ)) (i j : Nat) : ℚ :=
  (C.getD i []).getD j 0

/-- Modelled from the spec: the walk of the Truncation Policy, spec section 4.3
step 3 (implemented in the missing module
`rbnicsx._backends.proper_orthogonal_decomposition`): walk the eigenvalues
sorted by descending value, accumulating a running sum, and stop as soon as
either the number of retained modes reaches `Nmax` or the running sum divided
by the total energy reaches or exceeds `1 - tol`. -/
def truncationWalk (total : ℚ) (Nmax : Nat) (tol : ℚ) :
    List ℚ → ℚ → Nat → Nat
  | [], _, count => count
  | lam :: rest, runningSum, count =>
    if Nmax ≤ count then count
    else if 1 - tol ≤ runningSum / total then count
    else truncationWalk total Nmax tol rest (runningSum + lam) (count + 1)

/-- Modelled from the spec: the Truncation Policy of spec section 4.3
(implemented in the missing module
`rbnicsx._backends.proper_orthogonal_decomposition`): the number of retained
modes, with the section 4.3 step 4 edge case that a zero or non-positive
total energy retains zero modes. -/
def truncationCount (eigenvalues : List ℚ) (Nmax : Nat) (tol : ℚ) : Nat :=
  let total := eigenvalues.sum
  if total ≤ 0 then 0 else truncationWalk total Nmax tol eigenvalues 0 0

/-- The stopping condition of the truncation walk after `k` modes have been
retained: either the rank cap is reached or the retained energy ratio reaches
or exceeds `1 - tol`. -/
def stopCondition (eigenvalues : List ℚ) (Nmax : Nat) (tol : ℚ) (k : Nat) : Prop :=
  Nmax ≤ k ∨ 1 - tol ≤ (eigenvalues.take k).sum / eigenvalues.sum

instance (eigenvalues : List ℚ) (Nmax : Nat) (tol : ℚ) (k : Nat) :
    Decidable (stopCondition eigenvalues Nmax tol k) := by
  unfold stopCondition; infer_instance

/-- Descending order on eigenpairs: a pair precedes another when its
eigenvalue is at least as large. -/
def eigGE (p q : ℚ × List ℚ) : Prop := q.1 ≤ p.1

instance : DecidableRel eigGE := fun p q => inferInstanceAs (Decidable (q.1 ≤ p.1))

instance : IsTotal (ℚ × List ℚ) eigGE := ⟨fun p q => le_total q.1 p.1⟩

instance : IsTrans (ℚ × List ℚ) eigGE := ⟨fun _ _ _ hab hbc => le_trans hbc hab⟩

/-- Modelled from the spec: the linear combination of the Basis Reconstructor,
spec section 4.4 (implemented in the missing module
`rbnicsx._backends.proper_orthogonal_decomposition`): the mode
`m = Σ_i coeffs[i] * snaps[i]`, built from freshly allocated snapshot space
objects without touching the inputs. -/
def linearCombination {V : Type} (space : SnapshotSpace V) (coeffs : List ℚ)
    (snaps : List V) : V :=
  (List.zip coeffs snaps).foldl (fun acc cs => space.add acc (space.smul cs.1 cs.2))
    space.zero

/-- Modelled from the spec: one mode of the Basis Reconstructor, spec section
4.4 (implemented in the missing module
`rbnicsx._backends.proper_orthogonal_decomposition`): the linear combination of
the snapshots weighted by the eigenvector components, rescaled by
`1 / sqrt(a(m, m))` when `normalize` is true; a zero or negative computed
squared norm is never divided by, such a mode is left unnormalized (the skip
policy allowed by spec sections 4.4 and 9). -/
def reconstructMode {V : Type} (space : SnapshotSpace V) (sqrt : ℚ → ℚ)
    (snaps : List V) (coeffs : List ℚ) (normalize : Bool) : V :=
  let m := linearCombination space coeffs snaps
  if normalize then
    let normSq := space.ip m m
    if 0 < normSq then space.smul (1 / sqrt normSq) m else m
  else m

/-- The result of one proper orthogonal decomposition: the full eigenvalue
array, the retained modes and the retained eigenvectors. -/
structure PODResult (V : Type) where
  eigenvalues : List ℚ
  modes : List V
  eigenvectors : List (List ℚ)
  deriving DecidableEq

/-- Modelled from the spec: the single-block POD pipeline
`proper_orthogonal_decomposition_functions` of the missing module
`rbnicsx._backends.proper_orthogonal_decomposition`, following spec sections
4.1-4.4 and 6: an empty snapshot collection short-circuits to an empty result
without invoking the eigensolver; otherwise build the correlation matrix, hand
it to the external eigensolver `eig`, sort the eigenpairs by descending
eigenvalue, truncate by `Nmax` and `tol`, and reconstruct the retained modes.
The full eigenvalue array is returned untruncated; only the modes and the
eigenvector list are truncated. -/
def properOrthogonalDecompositionFunctions {V : Type} [Inhabited V]
    (space : SnapshotSpace V) (eig : List (List ℚ) → List (ℚ × List ℚ))
    (sqrt : ℚ → ℚ) (snaps : List V) (Nmax : Nat) (tol : ℚ) (normalize : Bool) :
    PODResult V :=
  if snaps.isEmpty then ⟨[], [], []⟩
  else
    let C := correlationMatrix space.ip snaps
    let sorted := List.insertionSort eigGE (eig C)
    let evs := sorted.map Prod.fst
    let count := truncationCount evs Nmax tol
    let retained := sorted.take count
    ⟨evs, retained.map fun p => reconstructMode space sqrt snaps p.2 normalize,
      retained.map Prod.snd⟩

/-- A per-block parameter of the Block Orchestrator: either a single scalar,
broadcast to all blocks, or a per-block list. -/
inductive ScalarOrList (α : Type) where
  | scalar : α → ScalarOrList α
  | perBlock : List α → ScalarOrList α
  deriving DecidableEq

/-- Modelled from the spec: the broadcast step of the Block Orchestrator, spec
section 4.5 (implemented in the missing module
`rbnicsx._backends.proper_orthogonal_decomposition`): a scalar is broadcast to
every block; a list must have length `B`, otherwise the call fails with
`InvalidInput`. -/
def broadcastParameter {α : Type} (p : ScalarOrList α) (B : Nat) :
    Except String (List α) :=
  match p with
  | .scalar a => .ok (List.replicate B a)
  | .perBlock l => if l.length = B then .ok l else .error "InvalidInput"

/-- Modelled from the spec: the Block Orchestrator
`proper_orthogonal_decomposition_functions_block` of the missing module
`rbnicsx._backends.proper_orthogonal_decomposition`, spec section 4.5: run the
single-block pipeline independently on each of the `B` blocks, with `N` and
`tol` broadcast when given as scalars. -/
def properOrthogonalDecompositionFunctionsBlock {V : Type} [Inhabited V]
    (spaces : List (SnapshotSpace V)) (eig : List (List ℚ) → List (ℚ × List ℚ))
    (sqrt : ℚ → ℚ) (functionsLists : List (List V)) (Ns : ScalarOrList Nat)
    (tols : ScalarOrList ℚ) (normalize : Bool) :
    Except String (List (PODResult V)) := do
  let B := functionsLists.length
  let Nlist ← broadcastParameter Ns B
  let tolList ← broadcastParameter tols B
  return (List.zip (List.zip spaces functionsLists) (List.zip Nlist tolList)).map
    fun x => properOrthogonalDecompositionFunctions x.1.1 eig sqrt x.1.2
      x.2.1 x.2.2 normalize

/-- The vector space operations of the function snapshot backend: scaling as
in `_scale_function` of `rbnicsx/backends/proper_orthogonal_decomposition.py`,
together with addition and the zero element used to build linear
combinations. -/
structure FunctionOps (V : Type) where
  smul : ℚ → V → V
  add : V → V → V
  zero : V

/-- The snapshot space obtained by pairing the backend operations with the
inner product produced by `bilinear_form_action(inner_product)` (line 73 of
`rbnicsx/backends/proper_orthogonal_decomposition.py`). -/
def FunctionOps.withInnerProduct {V : Type} (ops : FunctionOps V)
    (ip : V → V → ℚ) : SnapshotSpace V :=
  ⟨ip, ops.smul, ops.add, ops.zero⟩

/-- The argument of the generic `proper_orthogonal_decomposition` entry point
of `rbnicsx/backends/proper_orthogonal_decomposition.py`.  The Python function
dispatches on the runtime type of its first argument
(`functools.singledispatch`): registered overloads exist for `FunctionsList`
(carrying an inner product form) and `TensorsList`; any other iterable,
including a plain list of blocks, falls through to the generic
implementation. -/
inductive PODArgument (V W : Type) where
  | functionsList (snapshots : List V) (innerProduct : V → V → ℚ)
  | tensorsList (snapshots : List W)
  | plainList (blocks : List (List V))
  | otherIterable

/-- The generic `proper_orthogonal_decomposition` entry point, lines 25-157 of
`rbnicsx/backends/proper_orthogonal_decomposition.py`: the `FunctionsList`
overload runs the function pipeline with the inner product given by the
bilinear form, the `TensorsList` overload runs the identical pipeline with the
default inner product supplied by the tensor type (spec section 6), and every
other argument raises
`RuntimeError("Please run the dispatched implementation.")`. -/
def proper_orthogonal_decomposition {V W : Type} [Inhabited V] [Inhabited W]
    (ops : FunctionOps V) (wspace : SnapshotSpace W)
    (eig : List (List ℚ) → List (ℚ × List ℚ)) (sqrt : ℚ → ℚ)
    (arg : PODArgument V W) (Nmax : Nat) (tol : ℚ) (normalize : Bool) :
    Except String (Sum (PODResult V) (PODResult W)) :=
  match arg with
  | .functionsList snaps ip =>
      .ok (.inl (properOrthogonalDecompositionFunctions (ops.withInnerProduct ip)
        eig sqrt snaps Nmax tol normalize))
  | .tensorsList snaps =>
      .ok (.inr (properOrthogonalDecompositionFunctions wspace eig sqrt snaps
        Nmax tol normalize))
  | .plainList _ => .error "Please run the dispatched implementation."
  | .otherIterable => .error "Please run the dispatched implementation."

/-- The separate block entry point `proper_orthogonal_decomposition_block`,
lines 79-123 of `rbnicsx/backends/proper_orthogonal_decomposition.py`: turn
each bilinear form into an inner product evaluator and delegate to the block
pipeline. -/
def proper_orthogonal_decomposition_block {V : Type} [Inhabited V]
    (ops : FunctionOps V) (eig : List (List ℚ) → List (ℚ × List ℚ))
    (sqrt : ℚ → ℚ) (functionsLists : List (List V))
    (innerProducts : List (V → V → ℚ)) (Ns : ScalarOrList Nat)
    (tols : ScalarOrList ℚ) (normalize : Bool) :
    Except String (List (PODResult V)) :=
  properOrthogonalDecompositionFunctionsBlock
    (innerProducts.map ops.withInnerProduct) eig sqrt functionsLists Ns tols
    normalize

theorem correlationMatrix_length {V : Type} [Inhabited V] (ip : V → V → ℚ)
    (snaps : List V) : (correlationMatrix ip snaps).length = snaps.length := by
  simp [correlationMatrix]

theorem matrixEntry_correlationMatrix {V : Type} [Inhabited V] (ip : V → V → ℚ)
    (snaps : List V) (i j : Nat) (hi : i < snaps.length) (hj : j < snaps.length) :
    matrixEntry (correlationMatrix ip snaps) i j =
      if i ≤ j then ip (snaps.getD i default) (snaps.getD j default)
      else ip (snaps.getD j default) (snaps.getD i default) := by
  simp [matrixEntry, correlationMatrix, List.getD_eq_getElem?_getD,
    List.getElem?_range, hi, hj]


theorem truncationWalk_le_count (total : ℚ) (Nmax : Nat) (tol : ℚ) :
    ∀ (rest : List ℚ) (runningSum : ℚ) (count : Nat),
      count ≤ truncationWalk total Nmax tol rest runningSum count
  | [], _, _ => le_refl _
  | lam :: rest, runningSum, count => by
    unfold truncationWalk
    split
    · exact le_refl _
    · split
      · exact le_refl _
      · exact le_trans (Nat.le_succ count)
          (truncationWalk_le_count total Nmax tol rest (runningSum + lam) (count + 1))

theorem truncationWalk_le_Nmax (total : ℚ) (Nmax : Nat) (tol : ℚ) :
    ∀ (rest : List ℚ) (runningSum : ℚ) (count : Nat), count ≤ Nmax →
      truncationWalk total Nmax tol rest runningSum count ≤ Nmax
  | [], _, _, h => h
  | lam :: rest, runningSum, count, h => by
    unfold truncationWalk
    split
    · exact h
    · split
      · exact h
      · exact truncationWalk_le_Nmax total Nmax tol rest (runningSum + lam)
          (count + 1) (Nat.succ_le_of_lt (Nat.lt_of_not_le (by assumption)))

theorem truncationWalk_le_length (total : ℚ) (Nmax : Nat) (tol : ℚ) :
    ∀ (rest : List ℚ) (runningSum : ℚ) (count : Nat),
      truncationWalk total Nmax tol rest runningSum count ≤ count + rest.length
  | [], _, _ => by simp [truncationWalk]
  | lam :: rest, runningSum, count => by
    unfold truncationWalk
    split
    · exact Nat.le_add_right _ _
    · split
      · exact Nat.le_add_right _ _
      · calc truncationWalk total Nmax tol rest (runningSum + lam) (count + 1)
            ≤ (count + 1) + rest.length :=
              truncationWalk_le_length total Nmax tol rest (runningSum + lam) (count + 1)
          _ = count + (lam :: rest).length := by simp; omega

theorem truncationCount_le_Nmax (eigenvalues : List ℚ) (Nmax : Nat) (tol : ℚ) :
    truncationCount eigenvalues Nmax tol ≤ Nmax := by
  unfold truncationCount
  dsimp only
  split
  · exact Nat.zero_le _
  · exact truncationWalk_le_Nmax _ _ _ _ _ _ (Nat.zero_le _)

theorem truncationCount_le_length (eigenvalues : List ℚ) (Nmax : Nat) (tol : ℚ) :
    truncationCount eigenvalues Nmax tol ≤ eigenvalues.length := by
  unfold truncationCount
  dsimp only
  split
  · exact Nat.zero_le _
  · simpa using truncationWalk_le_length eigenvalues.sum Nmax tol eigenvalues 0 0

theorem truncationWalk_firstStop (Nmax : Nat) (tol : ℚ) (evs : List ℚ) :
    ∀ (rest pre : List ℚ), pre ++ rest = evs →
      ((∀ j, pre.length ≤ j → j < truncationWalk evs.sum Nmax tol rest pre.sum pre.length →
          ¬ stopCondition evs Nmax tol j) ∧
        (stopCondition evs Nmax tol (truncationWalk evs.sum Nmax tol rest pre.sum pre.length) ∨
          truncationWalk evs.sum Nmax tol rest pre.sum pre.length = evs.length))
  | [], pre, hpre => by
    constructor
    · intro j hj hj2
      exact absurd (lt_of_le_of_lt hj hj2) (by simp [truncationWalk])
    · right
      simp [truncationWalk, ← hpre]
  | lam :: rest, pre, hpre => by
    have htake : evs.take pre.length = pre := by rw [← hpre]; simp
    unfold truncationWalk
    split
    · refine ⟨fun j hj hj2 => absurd (lt_of_le_of_lt hj hj2) (lt_irrefl _), Or.inl (Or.inl ?_)⟩
      assumption
    · split
      · refine ⟨fun j hj hj2 => absurd (lt_of_le_of_lt hj hj2) (lt_irrefl _),
          Or.inl (Or.inr ?_)⟩
        rw [htake]
        assumption
      · have hrec := truncationWalk_firstStop Nmax tol evs rest (pre ++ [lam])
          (by rw [← hpre]; simp)
        have hsum : (pre ++ [lam]).sum = pre.sum + lam := by simp
        have hlen : (pre ++ [lam]).length = pre.length + 1 := by simp
        rw [hsum, hlen] at hrec
        refine ⟨fun j hj hj2 => ?_, hrec.2⟩
        rcases Nat.eq_or_lt_of_le hj with heq | hlt
        · intro hstop
          rcases hstop with hcap | hratio
          · rw [← heq] at hcap
            exact absurd hcap (by assumption)
          · rw [← heq, htake] at hratio
            exact absurd hratio (by assumption)
        · exact hrec.1 j hlt hj2

/-- The truncation count stops at the first point where the stopping condition
holds: no index strictly below the count satisfies it, and the count itself
either satisfies it or exhausts all eigenpairs. -/
theorem truncationCount_firstStop (evs : List ℚ) (Nmax : Nat) (tol : ℚ)
    (htotal : 0 < evs.sum) :
    (∀ j, j < truncationCount evs Nmax tol → ¬ stopCondition evs Nmax tol j) ∧
      (stopCondition evs Nmax tol (truncationCount evs Nmax tol) ∨
        truncationCount evs Nmax tol = evs.length) := by
  have h0 : ¬ evs.sum ≤ 0 := not_le_of_lt htotal
  have hwalk := truncationWalk_firstStop Nmax tol evs evs [] rfl
  simp only [List.sum_nil, List.length_nil] at hwalk
  unfold truncationCount
  dsimp only
  rw [if_neg h0]
  exact ⟨fun j hj => hwalk.1 j (Nat.zero_le j) hj, hwalk.2⟩

theorem truncationWalk_mono_tol (total : ℚ) (Nmax : Nat) {tol1 tol2 : ℚ}
    (htol : tol1 ≤ tol2) :
    ∀ (rest : List ℚ) (runningSum : ℚ) (count : Nat),
      truncationWalk total Nmax tol2 rest runningSum count ≤
        truncationWalk total Nmax tol1 rest runningSum count
  | [], _, _ => le_refl _
  | lam :: rest, runningSum, count => by
    unfold truncationWalk
    split
    · exact le_refl _
    · split
      · split
        · exact le_refl _
        · exact le_trans (Nat.le_succ count)
            (truncationWalk_le_count total Nmax tol1 rest (runningSum + lam) (count + 1))
      · have h2 : ¬ 1 - tol2 ≤ runningSum / total := by assumption
        have h1 : ¬ 1 - tol1 ≤ runningSum / total := fun h =>
          h2 (le_trans (by linarith) h)
        rw [if_neg h1]
        exact truncationWalk_mono_tol total Nmax htol rest (runningSum + lam) (count + 1)

theorem truncationWalk_mono_Nmax (total tol : ℚ) {N1 N2 : Nat} (hN : N1 ≤ N2) :
    ∀ (rest : List ℚ) (runningSum : ℚ) (count : Nat),
      truncationWalk total N1 tol rest runningSum count ≤
        truncationWalk total N2 tol rest runningSum count
  | [], _, _ => le_refl _
  | lam :: rest, runningSum, count => by
    unfold truncationWalk
    split
    · split
      · exact le_refl _
      · split
        · exact le_refl _
        · exact le_trans (Nat.le_succ count)
            (truncationWalk_le_count total N2 tol rest (runningSum + lam) (count + 1))
    · have hc1 : ¬ N1 ≤ count := by assumption
      have hc2 : ¬ N2 ≤ count := fun h => hc1 (le_trans hN h)
      rw [if_neg hc2]
      split
      · exact le_refl _
      · exact truncationWalk_mono_Nmax total tol hN rest (runningSum + lam) (count + 1)

theorem truncationCount_mono_tol (evs : List ℚ) (Nmax : Nat) {tol1 tol2 : ℚ}
    (htol : tol1 ≤ tol2) :
    truncationCount evs Nmax tol2 ≤ truncationCount evs Nmax tol1 := by
  unfold truncationCount
  dsimp only
  split
  · exact Nat.zero_le _
  · exact truncationWalk_mono_tol evs.sum Nmax htol evs 0 0

theorem truncationCount_mono_Nmax (evs : List ℚ) (tol : ℚ) {N1 N2 : Nat}
    (hN : N1 ≤ N2) :
    truncationCount evs N1 tol ≤ truncationCount evs N2 tol := by
  unfold truncationCount
  dsimp only
  split
  · exact Nat.zero_le _
  · exact truncationWalk_mono_Nmax evs.sum tol hN evs 0 0


theorem properOrthogonalDecompositionFunctions_ne_nil {V : Type} [Inhabited V]
    (space : SnapshotSpace V) (eig : List (List ℚ) → List (ℚ × List ℚ))
    (sqrt : ℚ → ℚ) (snaps : List V) (Nmax : Nat) (tol : ℚ) (normalize : Bool)
    (hne : snaps ≠ []) :
    properOrthogonalDecompositionFunctions space eig sqrt snaps Nmax tol
        normalize =
      ⟨(List.insertionSort eigGE (eig (correlationMatrix space.ip snaps))).map
          Prod.fst,
        ((List.insertionSort eigGE (eig (correlationMatrix space.ip snaps))).take
          (truncationCount
            ((List.insertionSort eigGE
              (eig (correlationMatrix space.ip snaps))).map Prod.fst) Nmax tol)).map
          fun p => reconstructMode space sqrt snaps p.2 normalize,
        ((List.insertionSort eigGE (eig (correlationMatrix space.ip snaps))).take
          (truncationCount
            ((List.insertionSort eigGE
              (eig (correlationMatrix space.ip snaps))).map Prod.fst) Nmax tol)).map
          Prod.snd⟩ := by
  unfold properOrthogonalDecompositionFunctions
  rw [if_neg (by simpa using hne)]

/-- Claim C3: for every collection of snapshots and every inner product, the
correlation matrix built by the Correlation Matrix Builder is exactly
symmetric, `C[i][j] = C[j][i]`, because each off-diagonal inner product is
evaluated once and mirrored into the transposed entry. -/
theorem correlationMatrix_symmetric {V : Type} [Inhabited V] (ip : V → V → ℚ)
    (snaps : List V) (i j : Nat) (hi : i < snaps.length) (hj : j < snaps.length) :
    matrixEntry (correlationMatrix ip snaps) i j =
      matrixEntry (correlationMatrix ip snaps) j i := by
  rw [matrixEntry_correlationMatrix ip snaps i j hi hj,
    matrixEntry_correlationMatrix ip snaps j i hj hi]
  by_cases h1 : i ≤ j <;> by_cases h2 : j ≤ i
  · have h : i = j := le_antisymm h1 h2
    subst h; simp
  · simp [h1, h2]
  · simp [h1, h2]
  · rcases le_total i j with h | h
    · exact absurd h h1
    · exact absurd h h2

/-- Witness for `correlationMatrix_symmetric`: a concrete three-snapshot
collection with a deliberately non-symmetric evaluator, on which the mirrored
entries still agree. -/
theorem correlationMatrix_symmetric_witness :
    (0 < ([1, 2, 3] : List ℚ).length ∧ 2 < ([1, 2, 3] : List ℚ).length) ∧
      matrixEntry (correlationMatrix (fun x y => x - 2 * y) [1, 2, 3]) 0 2 =
        matrixEntry (correlationMatrix (fun x y => x - 2 * y) [1, 2, 3]) 2 0 :=
  ⟨⟨by decide, by decide⟩,
    correlationMatrix_symmetric (fun x y => x - 2 * y) [1, 2, 3] 0 2
      (by decide) (by decide)⟩

/-- Claim C6: on an empty snapshot collection the POD routine returns an empty
eigenvalue sequence, an empty reduced basis and an empty eigenvector list,
without raising an exception; the eigensolver is not invoked, so the result
does not depend on it. -/
theorem pod_empty_snapshots {V : Type} [Inhabited V] (space : SnapshotSpace V)
    (eig eig2 : List (List ℚ) → List (ℚ × List ℚ)) (sqrt : ℚ → ℚ)
    (Nmax : Nat) (tol : ℚ) (normalize : Bool) :
    properOrthogonalDecompositionFunctions space eig sqrt [] Nmax tol normalize =
        ⟨[], [], []⟩ ∧
      properOrthogonalDecompositionFunctions space eig sqrt [] Nmax tol
          normalize =
        properOrthogonalDecompositionFunctions space eig2 sqrt [] Nmax tol
          normalize :=
  ⟨rfl, rfl⟩

/-- Claim C7: a zero or non-positive total eigenvalue energy makes the truncation
policy retain zero modes (no division fault), and a mode whose computed
squared norm is zero or negative is never rescaled by the reconstructor; in
the pipeline a non-positive total energy yields an empty basis and an empty
eigenvector list. -/
theorem pod_degenerate_energy_safety {V : Type} [Inhabited V]
    (space : SnapshotSpace V) (eig : List (List ℚ) → List (ℚ × List ℚ))
    (sqrt : ℚ → ℚ) (snaps : List V) (coeffs : List ℚ) (evs : List ℚ)
    (Nmax : Nat) (tol : ℚ) (normalize : Bool)
    (htotal : evs.sum ≤ 0)
    (hnorm : space.ip (linearCombination space coeffs snaps)
      (linearCombination space coeffs snaps) ≤ 0) :
    truncationCount evs Nmax tol = 0 ∧
      reconstructMode space sqrt snaps coeffs normalize =
        linearCombination space coeffs snaps ∧
      ((properOrthogonalDecompositionFunctions space eig sqrt snaps Nmax tol
          normalize).eigenvalues.sum ≤ 0 →
        (properOrthogonalDecompositionFunctions space eig sqrt snaps Nmax tol
            normalize).modes = [] ∧
          (properOrthogonalDecompositionFunctions space eig sqrt snaps Nmax tol
            normalize).eigenvectors = []) := by
  refine ⟨?_, ?_, ?_⟩
  · unfold truncationCount
    dsimp only
    rw [if_pos htotal]
  · unfold reconstructMode
    cases normalize
    · rfl
    · dsimp only
      rw [if_neg (not_lt.mpr hnorm)]
      simp
  · intro hsum
    rcases eq_or_ne snaps [] with hs | hs
    · subst hs
      exact ⟨rfl, rfl⟩
    · rw [properOrthogonalDecompositionFunctions_ne_nil space eig sqrt snaps
        Nmax tol normalize hs] at hsum ⊢
      dsimp only at hsum ⊢
      have hcount : truncationCount
          ((List.insertionSort eigGE
            (eig (correlationMatrix space.ip snaps))).map Prod.fst) Nmax tol = 0 := by
        unfold truncationCount
        dsimp only
        rw [if_pos hsum]
      rw [hcount]
      simp

/-- Witness for `pod_degenerate_energy_safety`: a concrete degenerate setup
with non-positive total energy and a zero inner product. -/
theorem pod_degenerate_energy_safety_witness :
    (([1, -2] : List ℚ).sum ≤ 0 ∧
      (SnapshotSpace.mk (fun _ _ => (0 : ℚ)) (fun c x => c * x) (fun x y => x + y)
          0).ip
        (linearCombination
          ⟨fun _ _ => (0 : ℚ), fun c x => c * x, fun x y => x + y, 0⟩ [1] [1])
        (linearCombination
          ⟨fun _ _ => (0 : ℚ), fun c x => c * x, fun x y => x + y, 0⟩ [1] [1]) ≤ 0) ∧
      truncationCount [1, -2] 5 0 = 0 := by
  have h := pod_degenerate_energy_safety
    (V := ℚ) ⟨fun _ _ => (0 : ℚ), fun c x => c * x, fun x y => x + y, 0⟩
    (fun _ => [(1, [1])]) (fun q => q) [1] [1] [1, -2] 5 0 true
    (by norm_num) (by norm_num)
  exact ⟨⟨by norm_num, by norm_num⟩, h.1⟩

/-- Claim C9: for a fixed snapshot collection and inner product, the number of
retained modes is monotonically non-decreasing when the tolerance decreases
with the rank cap fixed, and when the rank cap increases with the tolerance
fixed, both at the truncation policy and at the pipeline level. -/
theorem pod_mode_count_monotone {V : Type} [Inhabited V]
    (space : SnapshotSpace V) (eig : List (List ℚ) → List (ℚ × List ℚ))
    (sqrt : ℚ → ℚ) (snaps : List V) (evs : List ℚ) (normalize : Bool)
    (N1 N2 Nmax : Nat) (tol tol1 tol2 : ℚ)
    (htol : tol1 ≤ tol2) (hN : N1 ≤ N2) :
    truncationCount evs Nmax tol2 ≤ truncationCount evs Nmax tol1 ∧
      truncationCount evs N1 tol ≤ truncationCount evs N2 tol ∧
      (properOrthogonalDecompositionFunctions space eig sqrt snaps Nmax tol2
          normalize).modes.length ≤
        (properOrthogonalDecompositionFunctions space eig sqrt snaps Nmax tol1
          normalize).modes.length ∧
      (properOrthogonalDecompositionFunctions space eig sqrt snaps N1 tol
          normalize).modes.length ≤
        (properOrthogonalDecompositionFunctions space eig sqrt snaps N2 tol
          normalize).modes.length := by
  refine ⟨truncationCount_mono_tol evs Nmax htol,
    truncationCount_mono_Nmax evs tol hN, ?_, ?_⟩
  · rcases eq_or_ne snaps [] with hs | hs
    · subst hs
      exact le_refl _
    · rw [properOrthogonalDecompositionFunctions_ne_nil space eig sqrt snaps
        Nmax tol2 normalize hs,
        properOrthogonalDecompositionFunctions_ne_nil space eig sqrt snaps
        Nmax tol1 normalize hs]
      simp only [List.length_map, List.length_take]
      exact min_le_min (truncationCount_mono_tol _ Nmax htol) (le_refl _)
  · rcases eq_or_ne snaps [] with hs | hs
    · subst hs
      exact le_refl _
    · rw [properOrthogonalDecompositionFunctions_ne_nil space eig sqrt snaps
        N1 tol normalize hs,
        properOrthogonalDecompositionFunctions_ne_nil space eig sqrt snaps
        N2 tol normalize hs]
      simp only [List.length_map, List.length_take]
      exact min_le_min (truncationCount_mono_Nmax _ tol hN) (le_refl _)

/-- Witness for `pod_mode_count_monotone`: concrete tolerances and rank caps
on a concrete eigenvalue list and one-snapshot pipeline. -/
theorem pod_mode_count_monotone_witness :
    ((0 : ℚ) ≤ 1 / 2 ∧ (1 : Nat) ≤ 2) ∧
      truncationCount [4, 1] 5 (1 / 2) ≤ truncationCount [4, 1] 5 0 := by
  have h := pod_mode_count_monotone
    (V := ℚ) ⟨fun x y => x * y, fun c x => c * x, fun x y => x + y, 0⟩
    (fun _ => [(4, [1])]) (fun q => q) [2] [4, 1] true 1 2 5 0 0 (1 / 2)
    (by norm_num) (by decide)
  exact ⟨⟨by norm_num, by decide⟩, h.1⟩

/-- Claim C2: the eigenvalue array returned by the POD routine is the complete,
untruncated spectrum: it has length exactly `N` (the number of snapshots,
given that the eigensolver collaborator returns `N` eigenpairs), is sorted
largest first, and is a permutation of the eigensolver output; only the basis
and the eigenvector list are truncated. -/
theorem pod_eigenvalues_complete_sorted {V : Type} [Inhabited V]
    (space : SnapshotSpace V) (eig : List (List ℚ) → List (ℚ × List ℚ))
    (sqrt : ℚ → ℚ) (snaps : List V) (Nmax : Nat) (tol : ℚ) (normalize : Bool)
    (heig : (eig (correlationMatrix space.ip snaps)).length = snaps.length) :
    (properOrthogonalDecompositionFunctions space eig sqrt snaps Nmax tol
        normalize).eigenvalues.length = snaps.length ∧
      List.Sorted (fun a b => b ≤ a)
        (properOrthogonalDecompositionFunctions space eig sqrt snaps Nmax tol
          normalize).eigenvalues ∧
      List.Perm
        (properOrthogonalDecompositionFunctions space eig sqrt snaps Nmax tol
          normalize).eigenvalues
        ((eig (correlationMatrix space.ip snaps)).map Prod.fst) := by
  rcases eq_or_ne snaps [] with hs | hs
  · subst hs
    have hz : eig (correlationMatrix space.ip []) = [] :=
      List.eq_nil_of_length_eq_zero heig
    refine ⟨rfl, List.sorted_nil, ?_⟩
    rw [hz]
    exact List.Perm.refl _
  · rw [properOrthogonalDecompositionFunctions_ne_nil space eig sqrt snaps
      Nmax tol normalize hs]
    dsimp only
    refine ⟨?_, ?_, ?_⟩
    · rw [List.length_map, List.length_insertionSort]
      exact heig
    · exact List.Pairwise.map Prod.fst (fun a b h => h)
        (List.sorted_insertionSort eigGE
          (eig (correlationMatrix space.ip snaps)))
    · exact List.Perm.map Prod.fst
        (List.perm_insertionSort eigGE (eig (correlationMatrix space.ip snaps)))

/-- Witness for `pod_eigenvalues_complete_sorted`: a concrete two-snapshot
run whose eigensolver returns its two eigenpairs in ascending order. -/
theorem pod_eigenvalues_complete_sorted_witness :
    (((fun _ => [((1 : ℚ), [0, 1]), (4, [1, 0])]) (correlationMatrix
        (SnapshotSpace.mk (fun x y => x * y) (fun c x => c * x)
          (fun x y => x + y) (0 : ℚ)).ip [1, 2])).length =
      ([1, 2] : List ℚ).length) ∧
      (properOrthogonalDecompositionFunctions
        ⟨fun x y => x * y, fun c x => c * x, fun x y => x + y, (0 : ℚ)⟩
        (fun _ => [((1 : ℚ), [0, 1]), (4, [1, 0])]) (fun q => q) [1, 2] 2 0
        true).eigenvalues.length = ([1, 2] : List ℚ).length := by
  have h := pod_eigenvalues_complete_sorted
    (V := ℚ) ⟨fun x y => x * y, fun c x => c * x, fun x y => x + y, 0⟩
    (fun _ => [((1 : ℚ), [0, 1]), (4, [1, 0])]) (fun q => q) [1, 2] 2 0 true
    (by decide)
  exact ⟨by decide, h.1⟩

/-- Claim C1: for a non-empty snapshot collection with positive total energy, the
truncation policy stops at the first point where either the retained count
reaches the rank cap or the retained energy ratio reaches or exceeds
`1 - tol`; the number of retained modes and eigenvectors is at most
`min Nmax N`. -/
theorem pod_truncation_policy {V : Type} [Inhabited V]
    (space : SnapshotSpace V) (eig : List (List ℚ) → List (ℚ × List ℚ))
    (sqrt : ℚ → ℚ) (snaps : List V) (Nmax : Nat) (tol : ℚ) (normalize : Bool)
    (hne : snaps ≠ [])
    (heig : (eig (correlationMatrix space.ip snaps)).length = snaps.length) :
    (properOrthogonalDecompositionFunctions space eig sqrt snaps Nmax tol
        normalize).modes.length ≤ min Nmax snaps.length ∧
      (properOrthogonalDecompositionFunctions space eig sqrt snaps Nmax tol
        normalize).eigenvectors.length ≤ min Nmax snaps.length ∧
      (0 < (properOrthogonalDecompositionFunctions space eig sqrt snaps Nmax
          tol normalize).eigenvalues.sum →
        (∀ j, j < (properOrthogonalDecompositionFunctions space eig sqrt snaps
            Nmax tol normalize).modes.length →
          ¬ stopCondition (properOrthogonalDecompositionFunctions space eig
            sqrt snaps Nmax tol normalize).eigenvalues Nmax tol j) ∧
        (stopCondition (properOrthogonalDecompositionFunctions space eig sqrt
            snaps Nmax tol normalize).eigenvalues Nmax tol
            (properOrthogonalDecompositionFunctions space eig sqrt snaps Nmax
              tol normalize).modes.length ∨
          (properOrthogonalDecompositionFunctions space eig sqrt snaps Nmax
            tol normalize).modes.length = snaps.length)) := by
  rw [properOrthogonalDecompositionFunctions_ne_nil space eig sqrt snaps
    Nmax tol normalize hne]
  dsimp only
  have hslen : (List.insertionSort eigGE
      (eig (correlationMatrix space.ip snaps))).length = snaps.length := by
    rw [List.length_insertionSort]
    exact heig
  have hevlen : ((List.insertionSort eigGE
      (eig (correlationMatrix space.ip snaps))).map Prod.fst).length =
      snaps.length := by
    rw [List.length_map]
    exact hslen
  have hcle : truncationCount ((List.insertionSort eigGE
      (eig (correlationMatrix space.ip snaps))).map Prod.fst) Nmax tol ≤
      snaps.length := by
    have h := truncationCount_le_length ((List.insertionSort eigGE
      (eig (correlationMatrix space.ip snaps))).map Prod.fst) Nmax tol
    rwa [hevlen] at h
  have hmod : (((List.insertionSort eigGE
      (eig (correlationMatrix space.ip snaps))).take
        (truncationCount ((List.insertionSort eigGE
          (eig (correlationMatrix space.ip snaps))).map Prod.fst) Nmax
          tol)).map
      fun p => reconstructMode space sqrt snaps p.2 normalize).length =
      truncationCount ((List.insertionSort eigGE
        (eig (correlationMatrix space.ip snaps))).map Prod.fst) Nmax tol := by
    rw [List.length_map, List.length_take, hslen]
    exact Nat.min_eq_left hcle
  refine ⟨?_, ?_, ?_⟩
  · rw [hmod]
    exact le_min (truncationCount_le_Nmax _ _ _) hcle
  · rw [List.length_map, List.length_take, hslen, Nat.min_eq_left hcle]
    exact le_min (truncationCount_le_Nmax _ _ _) hcle
  · intro htotal
    rw [hmod]
    have h := truncationCount_firstStop _ Nmax tol htotal
    rwa [hevlen] at h

/-- Witness for `pod_truncation_policy`: a concrete two-snapshot run with
positive total energy. -/
theorem pod_truncation_policy_witness :
    (([1, 2] : List ℚ) ≠ [] ∧
      ((fun _ => [((1 : ℚ), [0, 1]), (4, [1, 0])]) (correlationMatrix
        (SnapshotSpace.mk (fun x y => x * y) (fun c x => c * x)
          (fun x y => x + y) (0 : ℚ)).ip [1, 2])).length =
        ([1, 2] : List ℚ).length) ∧
      (properOrthogonalDecompositionFunctions
        ⟨fun x y => x * y, fun c x => c * x, fun x y => x + y, (0 : ℚ)⟩
        (fun _ => [((1 : ℚ), [0, 1]), (4, [1, 0])]) (fun q => q) [1, 2] 2 0
        true).modes.length ≤ min 2 ([1, 2] : List ℚ).length := by
  have h := pod_truncation_policy
    (V := ℚ) ⟨fun x y => x * y, fun c x => c * x, fun x y => x + y, 0⟩
    (fun _ => [((1 : ℚ), [0, 1]), (4, [1, 0])]) (fun q => q) [1, 2] 2 0 true
    (by decide) (by decide)
  exact ⟨⟨by decide, by decide⟩, h.1⟩

theorem reconstructMode_false {V : Type} (space : SnapshotSpace V)
    (sqrt : ℚ → ℚ) (snaps : List V) (coeffs : List ℚ) :
    reconstructMode space sqrt snaps coeffs false =
      linearCombination space coeffs snaps :=
  rfl

theorem pod_modes_getD {V : Type} [Inhabited V] (space : SnapshotSpace V)
    (eig : List (List ℚ) → List (ℚ × List ℚ)) (sqrt : ℚ → ℚ) (snaps : List V)
    (Nmax : Nat) (tol : ℚ) (normalize : Bool) (k : Nat)
    (hk : k < (properOrthogonalDecompositionFunctions space eig sqrt snaps
      Nmax tol normalize).modes.length) :
    (properOrthogonalDecompositionFunctions space eig sqrt snaps Nmax tol
        normalize).modes.getD k space.zero =
      reconstructMode space sqrt snaps
        ((properOrthogonalDecompositionFunctions space eig sqrt snaps Nmax tol
          normalize).eigenvectors.getD k []) normalize := by
  rcases eq_or_ne snaps [] with hs | hs
  · subst hs
    simp [properOrthogonalDecompositionFunctions] at hk
  · rw [properOrthogonalDecompositionFunctions_ne_nil space eig sqrt snaps
      Nmax tol normalize hs] at hk ⊢
    dsimp only at hk ⊢
    rw [List.getD_eq_getElem _ _ (by simpa using by simpa using hk),
      List.getD_eq_getElem _ _ (by simpa using by simpa using hk)]
    simp

theorem pod_retained_pair_mem {V : Type} [Inhabited V] (space : SnapshotSpace V)
    (eig : List (List ℚ) → List (ℚ × List ℚ)) (sqrt : ℚ → ℚ) (snaps : List V)
    (Nmax : Nat) (tol : ℚ) (normalize : Bool) (k : Nat)
    (hk : k < (properOrthogonalDecompositionFunctions space eig sqrt snaps
      Nmax tol normalize).modes.length) :
    ((properOrthogonalDecompositionFunctions space eig sqrt snaps Nmax tol
        normalize).eigenvalues.getD k 0,
      (properOrthogonalDecompositionFunctions space eig sqrt snaps Nmax tol
        normalize).eigenvectors.getD k []) ∈
      eig (correlationMatrix space.ip snaps) := by
  rcases eq_or_ne snaps [] with hs | hs
  · subst hs
    simp [properOrthogonalDecompositionFunctions] at hk
  · rw [properOrthogonalDecompositionFunctions_ne_nil space eig sqrt snaps
      Nmax tol normalize hs] at hk ⊢
    dsimp only at hk ⊢
    have hk2 : k < ((List.insertionSort eigGE
        (eig (correlationMatrix space.ip snaps))).take
        (truncationCount ((List.insertionSort eigGE
          (eig (correlationMatrix space.ip snaps))).map Prod.fst) Nmax
          tol)).length := by
      simpa using hk
    have hks : k < (List.insertionSort eigGE
        (eig (correlationMatrix space.ip snaps))).length := by
      rw [List.length_take] at hk2
      exact lt_of_lt_of_le hk2 (min_le_right _ _)
    rw [List.getD_eq_getElem _ _ (by simpa using hks),
      List.getD_eq_getElem _ _ (by simpa using hk2)]
    simp only [List.getElem_map, List.getElem_take, Prod.mk.eta]
    exact (List.Perm.mem_iff
      (List.perm_insertionSort eigGE
        (eig (correlationMatrix space.ip snaps)))).mp (List.getElem_mem hks)

/-- Claim C4: each element of the reduced basis is the reconstruction of the
positionally paired retained eigenvector: the mode is the linear combination
`Σ_i v_k[i] * s_i` of the input snapshots (exactly that combination when
normalization is off), the modes are paired positionally with the retained
eigenvectors (equal counts, and the k-th eigenvalue/eigenvector pair is one of
the eigensolver output pairs), and the embedding is pure, so no input snapshot
is mutated. -/
theorem pod_basis_reconstruction {V : Type} [Inhabited V]
    (space : SnapshotSpace V) (eig : List (List ℚ) → List (ℚ × List ℚ))
    (sqrt : ℚ → ℚ) (snaps : List V) (Nmax : Nat) (tol : ℚ) (normalize : Bool)
    (k : Nat)
    (hk : k < (properOrthogonalDecompositionFunctions space eig sqrt snaps
      Nmax tol normalize).modes.length) :
    (properOrthogonalDecompositionFunctions space eig sqrt snaps Nmax tol
        normalize).modes.length =
      (properOrthogonalDecompositionFunctions space eig sqrt snaps Nmax tol
        normalize).eigenvectors.length ∧
      (properOrthogonalDecompositionFunctions space eig sqrt snaps Nmax tol
          normalize).modes.getD k space.zero =
        reconstructMode space sqrt snaps
          ((properOrthogonalDecompositionFunctions space eig sqrt snaps Nmax
            tol normalize).eigenvectors.getD k []) normalize ∧
      (∀ k2, k2 < (properOrthogonalDecompositionFunctions space eig sqrt snaps
          Nmax tol false).modes.length →
        (properOrthogonalDecompositionFunctions space eig sqrt snaps Nmax tol
            false).modes.getD k2 space.zero =
          linearCombination space
            ((properOrthogonalDecompositionFunctions space eig sqrt snaps Nmax
              tol false).eigenvectors.getD k2 []) snaps) ∧
      ((properOrthogonalDecompositionFunctions space eig sqrt snaps Nmax tol
          normalize).eigenvalues.getD k 0,
        (properOrthogonalDecompositionFunctions space eig sqrt snaps Nmax tol
          normalize).eigenvectors.getD k []) ∈
        eig (correlationMatrix space.ip snaps) := by
  refine ⟨?_, pod_modes_getD space eig sqrt snaps Nmax tol normalize k hk,
    fun k2 hk2 => ?_, pod_retained_pair_mem space eig sqrt snaps Nmax tol
      normalize k hk⟩
  · rcases eq_or_ne snaps [] with hs | hs
    · subst hs
      rfl
    · rw [properOrthogonalDecompositionFunctions_ne_nil space eig sqrt snaps
        Nmax tol normalize hs]
      simp
  · rw [pod_modes_getD space eig sqrt snaps Nmax tol false k2 hk2,
      reconstructMode_false]

/-- Witness for `pod_basis_reconstruction`: the first retained mode of a
concrete two-snapshot run is the reconstruction of its paired eigenvector. -/
theorem pod_basis_reconstruction_witness :
    (0 < (properOrthogonalDecompositionFunctions
        ⟨fun x y => x * y, fun c x => c * x, fun x y => x + y, (0 : ℚ)⟩
        (fun _ => [((1 : ℚ), [0, 1]), (4, [1, 0])]) (fun q => q) [1, 2] 2 0
        false).modes.length) ∧
      (properOrthogonalDecompositionFunctions
          ⟨fun x y => x * y, fun c x => c * x, fun x y => x + y, (0 : ℚ)⟩
          (fun _ => [((1 : ℚ), [0, 1]), (4, [1, 0])]) (fun q => q) [1, 2] 2 0
          false).modes.length =
        (properOrthogonalDecompositionFunctions
          ⟨fun x y => x * y, fun c x => c * x, fun x y => x + y, (0 : ℚ)⟩
          (fun _ => [((1 : ℚ), [0, 1]), (4, [1, 0])]) (fun q => q) [1, 2] 2 0
          false).eigenvectors.length := by
  have h := pod_basis_reconstruction
    (V := ℚ) ⟨fun x y => x * y, fun c x => c * x, fun x y => x + y, 0⟩
    (fun _ => [((1 : ℚ), [0, 1]), (4, [1, 0])]) (fun q => q) [1, 2] 2 0 false 0
    (by norm_num [properOrthogonalDecompositionFunctions, correlationMatrix,
      truncationCount, truncationWalk, eigGE])
  refine ⟨?_, h.1⟩
  norm_num [properOrthogonalDecompositionFunctions, correlationMatrix,
    truncationCount, truncationWalk, eigGE]

/-- Claim C8: with `normalize = true`, every retained mode whose unnormalized
reconstruction has positive squared norm (the non-degenerate case) has
self-inner-product exactly 1, provided the inner product is quadratically
homogeneous under scaling and the square root collaborator is exact on that
squared norm. -/
theorem pod_normalized_mode_unit_norm {V : Type} [Inhabited V]
    (space : SnapshotSpace V) (eig : List (List ℚ) → List (ℚ × List ℚ))
    (sqrt : ℚ → ℚ) (snaps : List V) (Nmax : Nat) (tol : ℚ) (k : Nat)
    (hk : k < (properOrthogonalDecompositionFunctions space eig sqrt snaps
      Nmax tol true).modes.length)
    (hhom : ∀ (c : ℚ) (x : V),
      space.ip (space.smul c x) (space.smul c x) = c * c * space.ip x x)
    (hpos : 0 < space.ip
      (linearCombination space
        ((properOrthogonalDecompositionFunctions space eig sqrt snaps Nmax tol
          true).eigenvectors.getD k []) snaps)
      (linearCombination space
        ((properOrthogonalDecompositionFunctions space eig sqrt snaps Nmax tol
          true).eigenvectors.getD k []) snaps))
    (hsqrt : sqrt (space.ip
        (linearCombination space
          ((properOrthogonalDecompositionFunctions space eig sqrt snaps Nmax
            tol true).eigenvectors.getD k []) snaps)
        (linearCombination space
          ((properOrthogonalDecompositionFunctions space eig sqrt snaps Nmax
            tol true).eigenvectors.getD k []) snaps)) *
        sqrt (space.ip
          (linearCombination space
            ((properOrthogonalDecompositionFunctions space eig sqrt snaps Nmax
              tol true).eigenvectors.getD k []) snaps)
          (linearCombination space
            ((properOrthogonalDecompositionFunctions space eig sqrt snaps Nmax
              tol true).eigenvectors.getD k []) snaps)) =
        space.ip
          (linearCombination space
            ((properOrthogonalDecompositionFunctions space eig sqrt snaps Nmax
              tol true).eigenvectors.getD k []) snaps)
          (linearCombination space
            ((properOrthogonalDecompositionFunctions space eig sqrt snaps Nmax
              tol true).eigenvectors.getD k []) snaps)) :
    space.ip
        ((properOrthogonalDecompositionFunctions space eig sqrt snaps Nmax tol
          true).modes.getD k space.zero)
        ((properOrthogonalDecompositionFunctions space eig sqrt snaps Nmax tol
          true).modes.getD k space.zero) = 1 := by
  rw [pod_modes_getD space eig sqrt snaps Nmax tol true k hk]
  unfold reconstructMode
  dsimp only
  rw [if_pos rfl, if_pos hpos, hhom]
  set n2 := space.ip
    (linearCombination space
      ((properOrthogonalDecompositionFunctions space eig sqrt snaps Nmax tol
        true).eigenvectors.getD k []) snaps)
    (linearCombination space
      ((properOrthogonalDecompositionFunctions space eig sqrt snaps Nmax tol
        true).eigenvectors.getD k []) snaps) with hn2
  have hne : sqrt n2 ≠ 0 := by
    intro h0
    rw [h0, mul_zero] at hsqrt
    exact absurd hsqrt.symm (ne_of_gt hpos)
  field_simp
  linarith [hsqrt]

/-- Witness for `pod_normalized_mode_unit_norm`: a concrete one-snapshot run
whose single retained mode has squared norm 4, with an exact square root. -/
theorem pod_normalized_mode_unit_norm_witness :
    (SnapshotSpace.mk (fun x y => x * y) (fun c x => c * x) (fun x y => x + y)
        (0 : ℚ)).ip
      ((properOrthogonalDecompositionFunctions
        ⟨fun x y => x * y, fun c x => c * x, fun x y => x + y, (0 : ℚ)⟩
        (fun _ => [((4 : ℚ), [1])]) (fun _ => 2) [2] 1 0
        true).modes.getD 0 0)
      ((properOrthogonalDecompositionFunctions
        ⟨fun x y => x * y, fun c x => c * x, fun x y => x + y, (0 : ℚ)⟩
        (fun _ => [((4 : ℚ), [1])]) (fun _ => 2) [2] 1 0
        true).modes.getD 0 0) = 1 := by
  exact pod_normalized_mode_unit_norm
    (V := ℚ) ⟨fun x y => x * y, fun c x => c * x, fun x y => x + y, 0⟩
    (fun _ => [((4 : ℚ), [1])]) (fun _ => 2) [2] 1 0 0
    (by norm_num [properOrthogonalDecompositionFunctions, correlationMatrix,
      truncationCount, truncationWalk, eigGE])
    (fun c x => by ring)
    (by norm_num [properOrthogonalDecompositionFunctions, correlationMatrix,
      truncationCount, truncationWalk, eigGE, linearCombination])
    (by norm_num [properOrthogonalDecompositionFunctions, correlationMatrix,
      truncationCount, truncationWalk, eigGE, linearCombination])

/-- Claim C5: the block POD entry accepts `N` and `tol` each as a scalar (broadcast
identically to every block, equivalent to the per-block list that repeats the
scalar `B` times) or as a per-block list of length `B`; it fails with
`InvalidInput` when a list-form `N` or `tol` has length different from `B`;
and on valid per-block lists it runs the single-block pipeline independently
on each block with that block's inner product, rank cap and tolerance. -/
theorem pod_block_broadcast_and_dispatch {V : Type} [Inhabited V]
    (ops : FunctionOps V) (eig : List (List ℚ) → List (ℚ × List ℚ))
    (sqrt : ℚ → ℚ) (functionsLists : List (List V))
    (innerProducts : List (V → V → ℚ)) (Ns : ScalarOrList Nat)
    (tols : ScalarOrList ℚ) (N : Nat) (t : ℚ) (normalize : Bool)
    (Nlist : List Nat) (tolList : List ℚ)
    (hip : innerProducts.length = functionsLists.length)
    (hN : Nlist.length = functionsLists.length)
    (htol : tolList.length = functionsLists.length) :
    proper_orthogonal_decomposition_block ops eig sqrt functionsLists
        innerProducts (ScalarOrList.scalar N) tols normalize =
      proper_orthogonal_decomposition_block ops eig sqrt functionsLists
        innerProducts
        (ScalarOrList.perBlock (List.replicate functionsLists.length N)) tols
        normalize ∧
      proper_orthogonal_decomposition_block ops eig sqrt functionsLists
          innerProducts Ns (ScalarOrList.scalar t) normalize =
        proper_orthogonal_decomposition_block ops eig sqrt functionsLists
          innerProducts Ns
          (ScalarOrList.perBlock (List.replicate functionsLists.length t))
          normalize ∧
      (∀ badN : List Nat, badN.length ≠ functionsLists.length →
        proper_orthogonal_decomposition_block ops eig sqrt functionsLists
            innerProducts (ScalarOrList.perBlock badN) tols normalize =
          Except.error "InvalidInput") ∧
      (∀ badTol : List ℚ, badTol.length ≠ functionsLists.length →
        proper_orthogonal_decomposition_block ops eig sqrt functionsLists
            innerProducts (ScalarOrList.scalar N)
            (ScalarOrList.perBlock badTol) normalize =
          Except.error "InvalidInput") ∧
      (∃ results : List (PODResult V),
        proper_orthogonal_decomposition_block ops eig sqrt functionsLists
            innerProducts (ScalarOrList.perBlock Nlist)
            (ScalarOrList.perBlock tolList) normalize = Except.ok results ∧
          results.length = functionsLists.length ∧
          ∀ k, k < functionsLists.length →
            results.getD k ⟨[], [], []⟩ =
              properOrthogonalDecompositionFunctions
                (ops.withInnerProduct (innerProducts.getD k fun _ _ => 0)) eig
                sqrt (functionsLists.getD k []) (Nlist.getD k 0)
                (tolList.getD k 0) normalize) := by
  refine ⟨?_, ?_, ?_, ?_, ?_⟩
  · simp [proper_orthogonal_decomposition_block,
      properOrthogonalDecompositionFunctionsBlock, broadcastParameter]
  · simp [proper_orthogonal_decomposition_block,
      properOrthogonalDecompositionFunctionsBlock, broadcastParameter]
  · intro badN hbad
    simp only [proper_orthogonal_decomposition_block,
      properOrthogonalDecompositionFunctionsBlock, broadcastParameter,
      if_neg hbad]
    rfl
  · intro badTol hbad
    simp only [proper_orthogonal_decomposition_block,
      properOrthogonalDecompositionFunctionsBlock, broadcastParameter,
      if_neg hbad]
    rfl
  · refine ⟨(((innerProducts.map ops.withInnerProduct).zip functionsLists).zip
        (Nlist.zip tolList)).map fun x =>
          properOrthogonalDecompositionFunctions x.1.1 eig sqrt x.1.2 x.2.1
            x.2.2 normalize, ?_, ?_, ?_⟩
    · simp only [proper_orthogonal_decomposition_block,
        properOrthogonalDecompositionFunctionsBlock, broadcastParameter,
        if_pos hN, if_pos htol]
      rfl
    · simp [List.length_zip, List.length_map, hip, hN, htol]
    · intro k hk
      have hk1 : k < (List.zip
          (List.zip (innerProducts.map ops.withInnerProduct) functionsLists)
          (List.zip Nlist tolList)).length := by
        simp [List.length_zip, List.length_map, hip, hN, htol]
        exact hk
      rw [List.getD_eq_getElem _ _ (by simpa using hk1)]
      rw [List.getD_eq_getElem _ _ (by omega : k < Nlist.length),
        List.getD_eq_getElem _ _ (by omega : k < tolList.length),
        List.getD_eq_getElem _ _ (by omega : k < innerProducts.length),
        List.getD_eq_getElem _ _ (by omega : k < functionsLists.length)]
      simp [List.getElem_zip]

/-- Witness for `pod_block_broadcast_and_dispatch`: two concrete blocks with
per-block rank caps `[2, 5]` of matching length and a broadcast tolerance. -/
theorem pod_block_broadcast_and_dispatch_witness :
    (([fun x y => x * y, fun x y => 2 * x * y] :
          List (ℚ → ℚ → ℚ)).length = ([[1], [2, 3]] : List (List ℚ)).length ∧
        ([2, 5] : List Nat).length = ([[1], [2, 3]] : List (List ℚ)).length ∧
        ([0, 1 / 10] : List ℚ).length = ([[1], [2, 3]] : List (List ℚ)).length) ∧
      proper_orthogonal_decomposition_block
          (V := ℚ) ⟨fun c x => c * x, fun x y => x + y, 0⟩
          (fun _ => [(1, [1])]) (fun q => q) [[1], [2, 3]]
          [fun x y => x * y, fun x y => 2 * x * y]
          (ScalarOrList.perBlock [3, 5, 7]) (ScalarOrList.scalar (1 / 10))
          true = Except.error "InvalidInput" := by
  have h := pod_block_broadcast_and_dispatch
    (V := ℚ) ⟨fun c x => c * x, fun x y => x + y, 0⟩
    (fun _ => [(1, [1])]) (fun q => q) [[1], [2, 3]]
    [fun x y => x * y, fun x y => 2 * x * y]
    (ScalarOrList.scalar 4) (ScalarOrList.scalar (1 / 10)) 4 (1 / 10) true
    [2, 5] [0, 1 / 10] (by decide) (by decide) (by decide)
  exact ⟨⟨by decide, by decide, by decide⟩, h.2.2.1 [3, 5, 7] (by decide)⟩

/-- Claim C10: any snapshots argument that is neither a `FunctionsList` nor a
`TensorsList` makes the generic `proper_orthogonal_decomposition` entry point
fail with `RuntimeError("Please run the dispatched implementation.")`; in
particular block-structured input passed as a plain list is rejected, while
the block pipeline is reachable through the separate
`proper_orthogonal_decomposition_block` function, which succeeds on scalar
parameters. -/
theorem pod_generic_dispatch_rejects {V W : Type} [Inhabited V] [Inhabited W]
    (ops : FunctionOps V) (wspace : SnapshotSpace W)
    (eig : List (List ℚ) → List (ℚ × List ℚ)) (sqrt : ℚ → ℚ)
    (arg : PODArgument V W) (Nmax : Nat) (tol : ℚ) (normalize : Bool)
    (hfl : ∀ (snaps : List V) (ip : V → V → ℚ),
      arg ≠ PODArgument.functionsList snaps ip)
    (htl : ∀ tensors : List W, arg ≠ PODArgument.tensorsList tensors) :
    proper_orthogonal_decomposition ops wspace eig sqrt arg Nmax tol
        normalize =
      Except.error "Please run the dispatched implementation." ∧
      (∀ blocks : List (List V),
        proper_orthogonal_decomposition ops wspace eig sqrt
            (PODArgument.plainList blocks) Nmax tol normalize =
          Except.error "Please run the dispatched implementation.") ∧
      (∀ (functionsLists : List (List V))
          (innerProducts : List (V → V → ℚ)),
        ∃ results : List (PODResult V),
          proper_orthogonal_decomposition_block ops eig sqrt functionsLists
              innerProducts (ScalarOrList.scalar Nmax)
              (ScalarOrList.scalar tol) normalize = Except.ok results) := by
  refine ⟨?_, fun blocks => rfl, fun functionsLists innerProducts => ⟨_, rfl⟩⟩
  cases arg with
  | functionsList snaps ip => exact absurd rfl (hfl snaps ip)
  | tensorsList tensors => exact absurd rfl (htl tensors)
  | plainList blocks => rfl
  | otherIterable => rfl

/-- Witness for `pod_generic_dispatch_rejects`: the generic entry point
rejects an argument that is neither a functions list nor a tensors list. -/
theorem pod_generic_dispatch_rejects_witness :
    proper_orthogonal_decomposition (V := ℚ) (W := ℚ)
        ⟨fun c x => c * x, fun x y => x + y, 0⟩
        ⟨fun x y => x * y, fun c x => c * x, fun x y => x + y, 0⟩
        (fun _ => []) (fun q => q) PODArgument.otherIterable 3 0 true =
      Except.error "Please run the dispatched implementation." :=
  (pod_generic_dispatch_rejects
    ⟨fun c x => c * x, fun x y => x + y, 0⟩
    ⟨fun x y => x * y, fun c x => c * x, fun x y => x + y, 0⟩
    (fun _ => []) (fun q => q) PODArgument.otherIterable 3 0 true
    (fun _ _ h => PODArgument.noConfusion h)
    (fun _ h => PODArgument.noConfusion h)).1

end RBniCSx
